import Mathlib

/-!
# Verification of the tld-data aggregation pipeline

A shallow embedding of the extraction/merge core of the `tld-data`
repository (`src/fetch.js`, `src/utils.js`, `src/cli.js`) in Lean 4,
together with theorems settling the frozen claims about it.

Conventions of the embedding:

* JavaScript strings are modelled as Lean `String` / `List Char`
  (code points; the inputs of interest are handled identically by
  UTF-16 and code-point indexing).
* A JavaScript value that may be `undefined` is an `Option`.
* Code that can throw (`_assert`, `TypeError` from dereferencing
  `undefined`) is modelled in the `Except String` monad; an `Except.error`
  is a thrown exception aborting the surrounding unit of work.
* `dayjs` date objects are `Option Int`: `none` is an Invalid Date
  (dayjs never throws on a parse failure; it produces an Invalid Date
  object), `some e` a valid date with `e` a strictly monotone encoding
  of the calendar date, so that `isAfter` is the `<` comparison.
* Network effects are passed in as explicit data: the fetched documents
  (already split into the query results the code reads off them) are
  plain arguments, and `punycode.decode` is an abstract `String → String`
  parameter.
-/

/-! ## JS string and array helpers -/

/-- The characters matched by the JS regex `/\s/` (restricted to the ASCII
whitespace that can occur in the consumed documents; `\n` cannot occur inside
a line after splitting on newlines). -/
def isJsSpace (c : Char) : Bool :=
  decide (c = ' ' ∨ c = '\t' ∨ c = '\r' ∨ c = '\x0b' ∨ c = '\x0c')

/-- `String.prototype.trim` on a code-point list: strip leading and trailing
whitespace. -/
def trimChars (cs : List Char) : List Char :=
  ((cs.dropWhile isJsSpace).reverse.dropWhile isJsSpace).reverse

/-- `s.trim()`. -/
def jsTrim (s : String) : String :=
  String.mk (trimChars s.toList)

/-- Does `pat` occur at the head of `cs`? (`String.prototype.startsWith` /
the anchored step of `includes`). -/
def charsLead (pat : List Char) (cs : List Char) : Bool :=
  match pat, cs with
  | [], _ => true
  | _ :: _, [] => false
  | p :: ps, c :: rest => decide (p = c) && charsLead ps rest

/-- `String.prototype.includes`: does `pat` occur contiguously in `cs`? -/
def charsContains (pat : List Char) (cs : List Char) : Bool :=
  match cs with
  | [] => pat.isEmpty
  | _ :: rest => charsLead pat cs || charsContains pat rest

/-- ASCII lower-casing of one character, the folding relevant to the
case-insensitive regex `/withdrawal/i` on the documents consumed. -/
def lowerAscii (c : Char) : Char :=
  if 'A' ≤ c ∧ c ≤ 'Z' then Char.ofNat (c.toNat + 32) else c

/-- Case-insensitive containment, modelling `s.match(/pat/i)` being non-null
for a literal pattern `pat` (given in lower case). -/
def charsContainsCI (pat : List Char) (cs : List Char) : Bool :=
  charsContains pat (cs.map lowerAscii)

/-- `String.prototype.split(sep)` for a one-character separator, on
code-point lists.  `"".split(c) = [""]`. -/
def splitCharAux (c : Char) : List Char → List Char → List (List Char)
  | [], acc => [acc.reverse]
  | x :: xs, acc =>
    if x = c then acc.reverse :: splitCharAux c xs []
    else splitCharAux c xs (x :: acc)

def splitChar (c : Char) (cs : List Char) : List (List Char) :=
  splitCharAux c cs []

/-- Worker for `jsUnique` carrying the set of already-seen elements (the JS
`Set` being filled by insertion). -/
def jsUniqueGo [DecidableEq α] (seen : List α) : List α → List α
  | [] => []
  | a :: l =>
    if a ∈ seen then jsUniqueGo seen l
    else a :: jsUniqueGo (a :: seen) l

/-- `Array.prototype.unique` from `utils.js`: `Array.from(new Set(this))`.
A JS `Set` keeps the first insertion of each element and iterates in
insertion order. -/
def jsUnique [DecidableEq α] (l : List α) : List α :=
  jsUniqueGo [] l

/-- `unique()` as applied to an array of *objects*: JS `Set` membership on
objects is reference identity, and every element of the arrays it is applied
to in `getTLDsWithStatusPeriods` is a distinct freshly-allocated object.  We
model the reference of each element by its allocation (position) index. -/
def uniqueByRef [DecidableEq α] (l : List α) : List α :=
  (jsUnique l.enum).map Prod.snd

/-- Failure-propagating map over a list in the `Except` monad: the JS
`Array.prototype.map` whose callback may throw, aborting the whole map. -/
def exceptMapM (f : α → Except ε β) : List α → Except ε (List β)
  | [] => Except.ok []
  | a :: l =>
    match f a with
    | Except.error e => Except.error e
    | Except.ok b =>
      match exceptMapM f l with
      | Except.error e => Except.error e
      | Except.ok bs => Except.ok (b :: bs)

/-- Dereference a possibly-`undefined` value: calling a method on
`undefined` throws a `TypeError`. -/
def jsDeref (o : Option α) : Except String α :=
  match o with
  | none => Except.error "TypeError"
  | some a => Except.ok a

/-! ## dayjs dates -/

/-- A dayjs object: `none` is an Invalid Date, `some e` a valid date under
the strictly monotone encoding `encodeYMD`. -/
abbrev Dayjs := Option Int

/-- Strictly monotone encoding of a calendar date (lexicographic in
year, month, day; month ≤ 12 < 13 and day ≤ 31 < 32). -/
def encodeYMD (y m d : Nat) : Int :=
  (y * 416 + m * 32 + d : Nat)

/-- `a.isAfter(b)`.  dayjs comparisons against an Invalid Date are `false`
whichever side the invalid date is on (`NaN` comparisons). -/
def dayjsIsAfter (a b : Dayjs) : Bool :=
  match a, b with
  | some x, some y => y < x
  | _, _ => false

def monthNum (s : List Char) : Option Nat :=
  if s = [ 'J', 'a', 'n' ] then some 1
  else if s = [ 'F', 'e', 'b' ] then some 2
  else if s = [ 'M', 'a', 'r' ] then some 3
  else if s = [ 'A', 'p', 'r' ] then some 4
  else if s = [ 'M', 'a', 'y' ] then some 5
  else if s = [ 'J', 'u', 'n' ] then some 6
  else if s = [ 'J', 'u', 'l' ] then some 7
  else if s = [ 'A', 'u', 'g' ] then some 8
  else if s = [ 'S', 'e', 'p' ] then some 9
  else if s = [ 'O', 'c', 't' ] then some 10
  else if s = [ 'N', 'o', 'v' ] then some 11
  else if s = [ 'D', 'e', 'c' ] then some 12
  else none

def digitsToNat : List Char → Nat → Nat
  | [], acc => acc
  | c :: cs, acc => digitsToNat cs (acc * 10 + (c.toNat - '0'.toNat))

def allDigits (cs : List Char) : Bool :=
  cs.all (fun c => decide ('0' ≤ c ∧ c ≤ '9'))

/-- `dayjs(s, 'D MMM YYYY', true)`: strict parse of a day-month-year string
("16 Nov 2020").  A string that does not match the format produces an
Invalid Date (`none`); dayjs never throws on parse failure. -/
def parseDMMMYYYY (s : String) : Dayjs :=
  match splitChar ' ' s.toList with
  | [ d, m, y ] =>
    if allDigits d ∧ (d.length = 1 ∨ d.length = 2) ∧ allDigits y ∧ y.length = 4 then
      match monthNum m with
      | none => none
      | some mo =>
        let dv := digitsToNat d 0
        if 1 ≤ dv ∧ dv ≤ 31 then some (encodeYMD (digitsToNat y 0) mo dv) else none
    else none
  | _ => none

def digitChar (n : Nat) : Char := Char.ofNat ('0'.toNat + n % 10)

/-- `.format('YYYY-MM-DD')` on a valid date in the `encodeYMD` encoding. -/
def fmtDateEnc (e : Int) : String :=
  let n := e.toNat
  let y := n / 416
  let m := (n % 416) / 32
  let d := n % 32
  String.mk [ digitChar (y / 1000), digitChar (y / 100), digitChar (y / 10), digitChar y,
    '-', digitChar (m / 10), digitChar m, '-', digitChar (d / 10), digitChar d ]

/-- `.format('YYYY-MM-DD')` on any dayjs object; formatting an Invalid Date
yields the string "Invalid Date". -/
def dayjsFormatYMD : Dayjs → String
  | none => String.mk [ 'I', 'n', 'v', 'a', 'l', 'i', 'd', ' ', 'D', 'a', 't', 'e' ]
  | some e => fmtDateEnc e

/-! ## Status-period extractor (`getTLDsWithStatusPeriods`, fetch.js 188-298) -/

/-- An in-flight period object, dates still dayjs objects
(fields `name`/`open`/`close`/`type`; a field that is an `Option` models a
property that may be absent). -/
structure PeriodI where
  name : String
  openDate : Option Dayjs := none
  closeDate : Option Dayjs := none
  type : Option String := none
deriving DecidableEq

/-- An output period object after date formatting (fetch.js 275-285). -/
structure OutPeriod where
  name : String
  openDate : Option String := none
  closeDate : Option String := none
  type : Option String := none
deriving DecidableEq

/-- One element of the extractor's result (fetch.js 287-292). -/
structure StatusRecord where
  tld : String
  spec13 : Bool
  periods : List OutPeriod
  isNotGenerallyAvailable : Bool
deriving DecidableEq

/-- `makePeriod` (fetch.js 215-227): asserts the name is given, drops a
period with neither date, and otherwise builds the period, parsing present
date strings strictly.  A date string failing the parse yields an Invalid
Date value, not an error. -/
def makePeriod (name openS closeS typeS : String) : Except String (List PeriodI) :=
  if name = "" then Except.error "No period name given"
  else if openS = "" ∧ closeS = "" then Except.ok []
  else Except.ok
    [ { name := name,
        openDate := if openS ≠ "" then some (parseDMMMYYYY openS) else none,
        closeDate := if closeS ≠ "" then some (parseDMMMYYYY closeS) else none,
        type := if typeS ≠ "" then some typeS else none } ]

/-- The list `close` dates are drawn from: periods not named
"Trademark Claims", their `close` fields where present
(fetch.js 258-261: `.filter(p => p.name !== 'Trademark Claims')
.map(p => p.close).filter(d => !!d)`; an Invalid Date object is truthy and
is kept). -/
def nonTMCCloses (periods : List PeriodI) : List Dayjs :=
  (periods.filter (fun p => p.name ≠ "Trademark Claims")).filterMap
    (fun p => p.closeDate)

/-- The `reduce` of fetch.js 263-268: highest close date under `isAfter`,
`none` when the list is empty (JS `undefined` accumulator). -/
def generalAvailabilityGuess1 (periods : List PeriodI) : Option Dayjs :=
  (nonTMCCloses periods).foldl
    (fun acc itm =>
      match acc with
      | none => some itm
      | some a => if dayjsIsAfter a itm then some a else some itm)
    none

/-- fetch.js 271-272: not generally available when no close date exists,
otherwise when the highest close date is after now. -/
def isNotGenerallyAvailableOf (periods : List PeriodI) (now : Int) : Bool :=
  match generalAvailabilityGuess1 periods with
  | none => true
  | some g => dayjsIsAfter g (some now)

/-- fetch.js 275-285: copy each period, formatting present dates. -/
def toOutPeriod (p : PeriodI) : OutPeriod :=
  { name := p.name,
    openDate := p.openDate.map dayjsFormatYMD,
    closeDate := p.closeDate.map dayjsFormatYMD,
    type := p.type }

/-- `punycode.toUnicode` on a single (dot-free) label: decode it when it
carries the `xn--` prefix, otherwise return it unchanged.  The punycode
decoding itself is the abstract parameter `decode`. -/
def jsToUnicode (decode : String → String) (s : String) : String :=
  if charsLead [ 'x', 'n', '-', '-' ] s.toList
  then decode (String.mk (s.toList.drop 4)) else s

def sunriseTypes : List String :=
  [ "Start Date Sunrise", "End Date Sunrise", "Spec 13 - .BRAND TLD" ]

/-- Index into a split-result with `undefined` semantics:
`parts[idx].trim()` throws when `idx` is out of range. -/
def jsIdx (l : List (List Char)) (i : Nat) : Except String (List Char) :=
  jsDeref (l.get? i)

/-- The row callback of `getTLDsWithStatusPeriods` (fetch.js 203-293).
`row` is the list of cell texts of one table row; a missing cell is JS
`undefined` (`row.get? i = none`), and dereferencing it throws.  Cells
2-5 are only ever used through truthiness and as dayjs input when truthy,
so reading a missing cell as `""` is observationally identical there. -/
def parseStatusRow (decode : String → String) (now : Int) (row : List String) :
    Except String StatusRecord := do
  -- `_assert(type === '' || types.includes(type.trim()), ...)` (line 211)
  let ty ← match row.get? 1 with
    | none => Except.error "TypeError"
    | some t =>
      if t = "" then Except.ok t
      else if sunriseTypes.contains (jsTrim t) then Except.ok t
      else Except.error "sunrise event type must be in well-known types or blank"
  -- other periods (lines 229-237), comma-split pairwise by index
  let otherPeriods ←
    if row.get? 7 = some "" then Except.ok []
    else do
      let fromS ← jsDeref (row.get? 6)
      let nameS ← jsDeref (row.get? 7)
      let toS ← jsDeref (row.get? 8)
      let typeS ← jsDeref (row.get? 9)
      let fromParts := splitChar ',' fromS.toList
      let nameParts := splitChar ',' nameS.toList
      let toParts := splitChar ',' toS.toList
      let typeParts := splitChar ',' typeS.toList
      let pss ← exceptMapM
        (fun p : Nat × List Char => do
          let nm ← jsIdx nameParts p.1
          let toC ← jsIdx toParts p.1
          let tyC ← jsIdx typeParts p.1
          makePeriod (jsTrim (String.mk nm)) (jsTrim (String.mk p.2))
            (jsTrim (String.mk toC)) (jsTrim (String.mk tyC)))
        fromParts.enum
      Except.ok pss.flatten
  let sunriseP ← makePeriod "Sunrise" ((row.get? 2).getD "") ((row.get? 3).getD "") ""
  let tmcP ← makePeriod "Trademark Claims" ((row.get? 4).getD "") ((row.get? 5).getD "") ""
  let periods := sunriseP ++ tmcP ++ otherPeriods
  let tld ← jsDeref (row.get? 0)
  Except.ok {
    tld := jsToUnicode decode tld,
    spec13 := jsTrim ty = "Spec 13 - .BRAND TLD",
    periods := periods.map toOutPeriod,
    isNotGenerallyAvailable := isNotGenerallyAvailableOf periods now }

/-- `getTLDsWithStatusPeriods` (fetch.js 188-298) on the parsed table rows:
map the row callback over every row, keep truthy results (every object is
truthy), then assert that no TLD appears twice — via
`ret.length === ret.unique().length`, where `unique` deduplicates by the
JS `Set` of the row *objects* (reference identity). -/
def getTLDsWithStatusPeriods (decode : String → String) (now : Int)
    (rows : List (List String)) : Except String (List StatusRecord) := do
  let ret ← exceptMapM (parseStatusRow decode now) rows
  let ret := ret.filter (fun _ => true)
  if ret.length = (uniqueByRef ret).length then Except.ok ret
  else Except.error "All TLDs should appear once in sunrise-sunset data"

/-! ## Root zone extractor (`getTLDsFromRootZone`, fetch.js 40-59) -/

/-- `s.search(/\s/)`: index of the first whitespace character, `-1` if
none. -/
def jsSearchWsAux : List Char → Nat → Int
  | [], _ => -1
  | c :: cs, i => if isJsSpace c then (i : Int) else jsSearchWsAux cs (i + 1)

def jsSearchWs (cs : List Char) : Int :=
  jsSearchWsAux cs 0

/-- `s.indexOf(c)` for a single character: first index, `-1` if absent. -/
def jsIndexOfCharAux (c : Char) : List Char → Nat → Int
  | [], _ => -1
  | x :: xs, i => if x = c then (i : Int) else jsIndexOfCharAux c xs (i + 1)

def jsIndexOfChar (cs : List Char) (c : Char) : Int :=
  jsIndexOfCharAux c cs 0

/-- `s.slice(0, i)` with a possibly negative `i`: a negative index counts
from the end (clamped at 0). -/
def jsSlice0 (cs : List Char) (i : Int) : List Char :=
  if i < 0 then cs.take (cs.length - (-i).toNat) else cs.take i.toNat

/-- The `xn--` prefix. -/
def xnLead : List Char := [ 'x', 'n', '-', '-' ]

/-- The line-processing stages of `getTLDsFromRootZone` before punycode
decoding (fetch.js 50-56): cut each line at its first whitespace, keep the
owner names whose only dot is the trailing one, strip that dot, drop empty
results. -/
def rootZoneStripped (text : String) : List (List Char) :=
  ((((splitChar '\n' text.toList).map
      (fun cs => jsSlice0 cs (jsSearchWs cs))).filter
      (fun cs => jsIndexOfChar cs '.' = (cs.length : Int) - 1)).map
      (fun cs => jsSlice0 cs (-1))).filter
    (fun cs => !cs.isEmpty)

/-- The label list before deduplication (fetch.js 57): decode `xn--`
labels through the abstract punycode decoder. -/
def rootZonePre (decode : String → String) (text : String) : List String :=
  (rootZoneStripped text).map
    (fun cs =>
      if charsLead xnLead cs then decode (String.mk (cs.drop 4))
      else String.mk cs)

/-- `getTLDsFromRootZone` (fetch.js 40-59) on the fetched zone text. -/
def getTLDsFromRootZone (decode : String → String) (text : String) : List String :=
  jsUnique (rootZonePre decode text)

/-! ## IANA registry extractor (`getTLDInfoFromIANADB`, fetch.js 78-100) -/

structure IanaRec where
  tld : String
  type : String
  sponsor : String
deriving DecidableEq

/-- `tld.trim().replace(/[.‏‎]/g, '')`: trim, then delete every
dot and bidirectional mark (fetch.js 94). -/
def ianaCleanTld (s : String) : String :=
  String.mk ((trimChars s.toList).filter
    (fun c => ¬ (c = '.' ∨ c = Char.ofNat 0x200F ∨ c = Char.ofNat 0x200E)))

/-- The row callback of `getTLDInfoFromIANADB` (fetch.js 91-99): the row is
destructured into its first three cells; a missing cell is `undefined` and
its `.trim()` throws.  Cells beyond the third are ignored by the
destructuring. -/
def parseIanaRow (cells : List String) : Except String IanaRec :=
  match cells.get? 0 with
  | none => Except.error "TypeError"
  | some tld =>
    match cells.get? 1 with
    | none => Except.error "TypeError"
    | some ty =>
      match cells.get? 2 with
      | none => Except.error "TypeError"
      | some sp =>
        Except.ok { tld := ianaCleanTld tld, type := jsTrim ty, sponsor := jsTrim sp }

/-- `getTLDInfoFromIANADB` (fetch.js 78-100) on the parsed table rows. -/
def getTLDInfoFromIANADB (rows : List (List String)) : Except String (List IanaRec) :=
  exceptMapM parseIanaRow rows

/-! ## Registry agreement extractor (`gTLDInfoFromRegistryAgreement`,
fetch.js 133-169) -/

/-- The query results the extractor reads off the fetched landing page:
the `#agmthtml a` anchor's href (when the anchor exists), whether a
`#spec13` element exists, and the `#spec9` element's text content (when
that element exists). -/
structure LandingPage where
  agmtHtmlHref : Option String
  spec13 : Bool
  spec9Text : Option String

structure AgreementInfo where
  hasSpec13 : Bool
  hasSpec12 : Bool
  hasSpec9Exemption : Bool
deriving DecidableEq

/-- `gTLDInfoFromRegistryAgreement` (fetch.js 133-169).  `site` maps the
href extracted from the landing page to the text of the linked
full-agreement document (the second fetch).  The `_assert` on the
`#agmthtml a` anchor fires before anything else is computed. -/
def gTLDInfoFromRegistryAgreement (page : LandingPage) (site : String → String) :
    Except String AgreementInfo :=
  match page.agmtHtmlHref with
  | none => Except.error "agmthtml anchor should be present"
  | some href =>
    let hasSpec13 := page.spec13
    let hasSpec9Exemption :=
      match page.spec9Text with
      | none => false
      | some txt => !charsContainsCI (String.toList "withdrawal") txt.toList
    let text2 := site href
    let hasSpec12 := charsContains (String.toList "SPECIFICATION 12") text2.toList
    Except.ok
      { hasSpec13 := hasSpec13, hasSpec12 := hasSpec12,
        hasSpec9Exemption := hasSpec9Exemption }

/-! ## Resilient fetcher (`fetch-retry` wrappers)

Two distinct fetch wrappers exist in the sources: `utils.js` exports a
configured wrapper (retries 4, delay `3^attempt * 10000` ms, retry on
statuses 500-511), while `fetch.js` line 10 builds its own
`fetchRetry(nodeFetch)` with the library defaults (retries 3, constant
1000 ms delay, `retryOn` empty so only network errors retry) and does
not use the `utils.js` one; every fetch of the pipeline goes through the
latter.  `fetchRetryGo` is the library's retry loop as a pure state
machine over the sequence of per-attempt outcomes: a non-retryable status
resolves with that status, a retryable one retries while attempts remain
and otherwise resolves, a network error retries while attempts remain and
otherwise rejects. -/

inductive FetchOutcome where
  | status (code : Nat)
  | networkError
deriving DecidableEq

structure RetryOpts where
  retries : Nat
  retryDelay : Nat → Nat
  retryOn : List Nat

/-- One step of the `fetch-retry` loop: `attempt` is the current attempt
index, the second argument the number of retries still allowed.  Returns
the final result (`Except.ok status` for a resolved response,
`Except.error ()` for a rejection with the network error) and the list of
backoff delays slept. -/
def fetchRetryGo (opts : RetryOpts) (outcomes : Nat → FetchOutcome) :
    Nat → Nat → Except Unit Nat × List Nat
  | attempt, 0 =>
    (match outcomes attempt with
     | FetchOutcome.status c => (Except.ok c, [])
     | FetchOutcome.networkError => (Except.error (), []))
  | attempt, fuel + 1 =>
    match outcomes attempt with
    | FetchOutcome.status c =>
      if opts.retryOn.contains c then
        let r := fetchRetryGo opts outcomes (attempt + 1) fuel
        (r.1, opts.retryDelay attempt :: r.2)
      else (Except.ok c, [])
    | FetchOutcome.networkError =>
      let r := fetchRetryGo opts outcomes (attempt + 1) fuel
      (r.1, opts.retryDelay attempt :: r.2)

def fetchRetrySim (opts : RetryOpts) (outcomes : Nat → FetchOutcome) :
    Except Unit Nat × List Nat :=
  fetchRetryGo opts outcomes 0 opts.retries

/-- The wrapper exported by `utils.js` (cli.js sources 57-72): 4 retries,
exponential backoff `Math.pow(3, attempt) * 10000`, retry on the statuses
`new Array(12).fill().map((_, i) => i + 500)` = 500..511. -/
def utilsFetchOpts : RetryOpts :=
  { retries := 4,
    retryDelay := fun attempt => 3 ^ attempt * 10000,
    retryOn := (List.range 12).map (fun i => i + 500) }

/-- The fetch actually used by the pipeline: `fetchRetry(nodeFetch)`
(fetch.js 10) with the library defaults — 3 retries, constant 1000 ms
delay, empty `retryOn` (only network failures retry), as the adjacent
source comment records. -/
def pipelineFetchOpts : RetryOpts :=
  { retries := 3, retryDelay := fun _ => 1000, retryOn := [] }

/-- Is this outcome one the given configuration retries? -/
def retryableIn (opts : RetryOpts) : FetchOutcome → Bool
  | FetchOutcome.status c => opts.retryOn.contains c
  | FetchOutcome.networkError => true

/-- How an outcome surfaces once no retry happens for it. -/
def resolveOf : FetchOutcome → Except Unit Nat
  | FetchOutcome.status c => Except.ok c
  | FetchOutcome.networkError => Except.error ()

/-! ## Aggregator (`getTLDData`, fetch.js 310-426, and `readPrevious`,
cli.js 13-27) -/

/-- A final per-TLD record at the stages claims touch (`tld` from the root
zone, `type` from the IANA join, brand/restriction fields from step 4;
`none` models an absent/`undefined` property, which `JSON.stringify`
omits). -/
structure MergedRec where
  tld : String
  type : String
  periods : Option (List OutPeriod) := none
  isNotInGeneralAvailability : Option Bool := none
  isBrand : Option Bool := none
  hasRestrictions : Option Bool := none
deriving DecidableEq

/-- The value part of a `manualData` / prior-run entry:
`{isBrand, hasRestrictions}` where either property may be absent or
`undefined`. -/
structure Overrides where
  isBrand : Option Bool
  hasRestrictions : Option Bool
deriving DecidableEq

/-- A record of a prior run as consumed by `readPrevious`
(cli.js 20): destructuring `{tld, isBrand, hasRestrictions}` of a JSON
object that may lack the latter two keys. -/
structure PrevRec where
  tld : String
  isBrand : Option Bool
  hasRestrictions : Option Bool
deriving DecidableEq

/-- JS object lookup on an object built by successive key insertions
(association list in insertion order, later insertion of the same key
winning, as with spread/`Object.assign`). -/
def jsGet (l : List (String × Overrides)) (k : String) : Option Overrides :=
  l.foldl (fun acc p => if p.1 = k then some p.2 else acc) none

/-- `mapReduceToObj` (utils.js): every key of `arr` mapped to the same
value object. -/
def mapReduceToObj (arr : List String) (v : Overrides) : List (String × Overrides) :=
  arr.map (fun s => (s, v))

/-- `readPrevious` (cli.js 13-27): re-key the prior run's records by TLD
to their `{isBrand, hasRestrictions}`; a record lacking those keys yields
an entry whose both properties are `undefined`. -/
def readPrevious (inp : List PrevRec) : List (String × Overrides) :=
  inp.map (fun r => (r.tld, { isBrand := r.isBrand, hasRestrictions := r.hasRestrictions }))

/-- The `manualData` object (fetch.js 382-403): static category tables,
then the caller-supplied prior-run data spread last (so it wins key
collisions). -/
def manualData (prevData : List (String × Overrides)) : List (String × Overrides) :=
  mapReduceToObj [ "com", "info", "net", "org", "mobi" ]
    { isBrand := none, hasRestrictions := none }
  ++ mapReduceToObj
    [ "aero", "asia", "cat", "coop", "edu", "gov", "int", "jobs", "mil",
      "museum", "post", "tel", "travel", "xxx" ]
    { isBrand := some false, hasRestrictions := some true }
  ++ mapReduceToObj [ "biz", "name", "pro" ]
    { isBrand := some false, hasRestrictions := some true }
  ++ [ ("arpa", { isBrand := some false, hasRestrictions := some true }) ]
  ++ prevData

/-- The per-record body of the `mapLimit` fan-out (fetch.js 405-423): an
entry in `manualData` (a truthy object, whatever its properties) is
assigned onto the record and no scrape happens; otherwise a generic-type
record is completed from the Registry Agreement Extractor's result with
`isBrand = hasSpec13 || hasSpec9Exemption` and
`hasRestrictions = hasSpec12`.  `agree` is the extractor's result for an
ASCII TLD, `toASCII` the `punycode.toASCII` conversion; the returned
`Bool` records whether the extractor was invoked for this record. -/
def registryAgreementStep (mdata : List (String × Overrides))
    (agree : String → AgreementInfo) (toASCII : String → String)
    (t : MergedRec) : MergedRec × Bool :=
  match jsGet mdata t.tld with
  | some ov =>
    ({ t with isBrand := ov.isBrand, hasRestrictions := ov.hasRestrictions }, false)
  | none =>
    if t.type = "generic" then
      let info := agree (toASCII t.tld)
      ({ t with
          isBrand := some (info.hasSpec13 || info.hasSpec9Exemption),
          hasRestrictions := some info.hasSpec12 }, true)
    else (t, false)

/-- Step 2 of `getTLDData` (fetch.js 336-342): give every root-zone label
the type of its first matching IANA record, asserting that a record
exists (`_assert(ianaDBTLD, ...)` aborts the merge at the first label
with no IANA record). -/
def combineIana (tlds : List String) (iana : List IanaRec) :
    Except String (List MergedRec) :=
  match tlds with
  | [] => Except.ok []
  | s :: rest =>
    match iana.find? (fun r => r.tld == s) with
    | none => Except.error (s ++ " must exist in the IANA DB but it did not")
    | some r =>
      match combineIana rest iana with
      | Except.error e => Except.error e
      | Except.ok l => Except.ok ({ tld := s, type := r.type } :: l)

/-! ## Concrete inputs used by the claim theorems -/

/-- A well-formed status-export row for the TLD "forum": blank sunrise
type, a Sunrise period "16 Nov 2020" to "16 Dec 2020", no Trademark
Claims dates, no other periods. -/
def dupStatusRow : List String :=
  [ "forum", "", "16 Nov 2020", "16 Dec 2020", "", "", "", "", "", "", "" ]

/-- A status-export row whose sunrise open date is not a date at all. -/
def badDateRow : List String :=
  [ "law", "", "garbage", "", "", "", "", "", "", "", "" ]

/-- A landing page carrying all three markers: the agreement link, a
Specification 13 element, and a Specification 9 element whose text is not
a withdrawal notice. -/
def landingAllMarkers : LandingPage :=
  { agmtHtmlHref := some "/en/about/agreements/registries/dummytld1",
    spec13 := true,
    spec9Text := some "Approved exemption request" }

/-- The linked full-agreement document for `landingAllMarkers`, containing
the literal marker. -/
def agreementAllMarkers : String → String :=
  fun _ => "REGISTRY AGREEMENT ... SPECIFICATION 12 ..."

/-- A single period list with one valid close date (encoding value 100). -/
def c2Periods : List PeriodI :=
  [ { name := "Sunrise", closeDate := some (some 100) } ]

/-- Carry-forward data for "mobi", a TLD that also has a static
`manualData` entry. -/
def prevDataMobi : List (String × Overrides) :=
  [ ("mobi", { isBrand := some true, hasRestrictions := some false }) ]

/-- A registry-agreement oracle answering with Specification 13 and 12
markers present and no Specification 9 exemption. -/
def agreeFix : String → AgreementInfo :=
  fun _ => { hasSpec13 := true, hasSpec12 := true, hasSpec9Exemption := false }

/-- A small root-zone transfer: a repeated ASCII TLD, a punycode TLD, a
second-level owner name and the root SOA-style line. -/
def rootZoneSample : String :=
  "com.\t86400\tIN\tNS\ta.gtld-servers.net.\nxn--p1ai.\t86400\tIN\tNS\tx.y.\ncom.\t86400\tIN\tNS\tb.gtld-servers.net.\nfoo.bar.\t300\tIN\tA\t1.2.3.4\n"

/-- A status-export row with a valid future Sunrise close ("1 Jan 2099")
and an other-period close that is not a date ("garbage"). -/
def poisonRow : List String :=
  [ "law", "", "", "1 Jan 2099", "", "", "1 Feb 2020", "Landrush",
    "garbage", "Other", "" ]

/-- The in-flight periods `poisonRow` produces: a Sunrise period closing
1 Jan 2099 and a Landrush period whose close is an Invalid Date. -/
def poisonPeriods : List PeriodI :=
  [ { name := "Sunrise", closeDate := some (some (encodeYMD 2099 1 1)) },
    { name := "Landrush",
      openDate := some (some (encodeYMD 2020 2 1)),
      closeDate := some (parseDMMMYYYY "garbage"),
      type := some "Other" } ]

/-! ## Lemmas about the JS helpers -/

theorem toList_mk (cs : List Char) : (String.mk cs).toList = cs := rfl

theorem mem_jsUniqueGo [DecidableEq α] {l : List α} :
    ∀ {seen : List α} {x : α}, x ∈ jsUniqueGo seen l ↔ x ∈ l ∧ x ∉ seen := by
  induction l with
  | nil => intro seen x; simp [jsUniqueGo]
  | cons a t ih =>
    intro seen x
    by_cases ha : a ∈ seen
    · rw [jsUniqueGo, if_pos ha, ih]
      constructor
      · exact fun ⟨hx, hs⟩ => ⟨List.mem_cons_of_mem _ hx, hs⟩
      · rintro ⟨hmem, hs⟩
        rcases List.mem_cons.mp hmem with rfl | hx
        · exact absurd ha hs
        · exact ⟨hx, hs⟩
    · rw [jsUniqueGo, if_neg ha]
      constructor
      · intro hx
        rcases List.mem_cons.mp hx with rfl | hx
        · exact ⟨List.mem_cons_self _ _, ha⟩
        · rcases ih.mp hx with ⟨hxt, hxs⟩
          exact ⟨List.mem_cons_of_mem _ hxt,
            fun hmem => hxs (List.mem_cons_of_mem _ hmem)⟩
      · rintro ⟨hmem, hs⟩
        rcases List.mem_cons.mp hmem with rfl | hx
        · exact List.mem_cons_self _ _
        · by_cases hxa : x = a
          · exact hxa ▸ List.mem_cons_self _ _
          · exact List.mem_cons_of_mem _
              (ih.mpr ⟨hx, by simp [hxa, hs]⟩)

theorem nodup_jsUniqueGo [DecidableEq α] {l : List α} :
    ∀ {seen : List α}, (jsUniqueGo seen l).Nodup := by
  induction l with
  | nil => intro seen; simp [jsUniqueGo]
  | cons a t ih =>
    intro seen
    by_cases ha : a ∈ seen
    · rw [jsUniqueGo, if_pos ha]; exact ih
    · rw [jsUniqueGo, if_neg ha]
      refine List.Nodup.cons (fun hmem => ?_) ih
      rcases mem_jsUniqueGo.mp hmem with ⟨_, hs⟩
      exact hs (List.mem_cons_self _ _)

theorem pairwise_indexOf_jsUniqueGo [DecidableEq α] {l : List α} :
    ∀ seen : List α,
      List.Pairwise (fun x y => List.indexOf x l < List.indexOf y l)
        (jsUniqueGo seen l) := by
  induction l with
  | nil => intro seen; simp [jsUniqueGo]
  | cons a t ih =>
    intro seen
    by_cases ha : a ∈ seen
    · rw [jsUniqueGo, if_pos ha]
      refine List.Pairwise.imp_of_mem ?_ (ih seen)
      intro x y hx hy hlt
      have hxs := (mem_jsUniqueGo.mp hx).2
      have hys := (mem_jsUniqueGo.mp hy).2
      have hxa : x ≠ a := fun h => hxs (h ▸ ha)
      have hya : y ≠ a := fun h => hys (h ▸ ha)
      rw [List.indexOf_cons_ne t hxa.symm, List.indexOf_cons_ne t hya.symm]
      omega
    · rw [jsUniqueGo, if_neg ha]
      refine List.Pairwise.cons ?_ ?_
      · intro y hy
        have hm := mem_jsUniqueGo.mp hy
        have hya : y ≠ a := fun h => hm.2 (h ▸ List.mem_cons_self a seen)
        rw [List.indexOf_cons_self, List.indexOf_cons_ne t hya.symm]
        omega
      · refine List.Pairwise.imp_of_mem ?_ (ih (a :: seen))
        intro x y hx hy hlt
        have hxa : x ≠ a :=
          fun h => (mem_jsUniqueGo.mp hx).2 (h ▸ List.mem_cons_self a seen)
        have hya : y ≠ a :=
          fun h => (mem_jsUniqueGo.mp hy).2 (h ▸ List.mem_cons_self a seen)
        rw [List.indexOf_cons_ne t hxa.symm, List.indexOf_cons_ne t hya.symm]
        omega

theorem mem_jsUnique [DecidableEq α] {l : List α} {x : α} :
    x ∈ jsUnique l ↔ x ∈ l := by
  rw [jsUnique, mem_jsUniqueGo]; simp

theorem nodup_jsUnique [DecidableEq α] (l : List α) : (jsUnique l).Nodup :=
  nodup_jsUniqueGo

theorem pairwise_indexOf_jsUnique [DecidableEq α] (l : List α) :
    List.Pairwise (fun x y => List.indexOf x l < List.indexOf y l) (jsUnique l) :=
  pairwise_indexOf_jsUniqueGo []

/-- Deduplication of an already duplicate-free list is the identity. -/
theorem jsUniqueGo_of_nodup [DecidableEq α] {l : List α} :
    ∀ {seen : List α}, l.Nodup → (∀ x ∈ l, x ∉ seen) → jsUniqueGo seen l = l := by
  induction l with
  | nil => intro seen _ _; rfl
  | cons a t ih =>
    intro seen hnd hd
    have ha : a ∉ seen := hd a (List.mem_cons_self _ _)
    rw [jsUniqueGo, if_neg ha]
    congr 1
    refine ih (List.Nodup.of_cons hnd) ?_
    intro x hx
    have hxa : x ≠ a := fun h => (List.nodup_cons.mp hnd).1 (h ▸ hx)
    simp [hxa, hd x (List.mem_cons_of_mem _ hx)]

/-- The duplicate check of `getTLDsWithStatusPeriods` is vacuous: `unique`
on the array of freshly allocated row objects deduplicates by reference,
and all references are distinct, so nothing is ever removed. -/
theorem uniqueByRef_eq [DecidableEq α] (l : List α) : uniqueByRef l = l := by
  unfold uniqueByRef jsUnique
  rw [jsUniqueGo_of_nodup (List.Nodup.of_map Prod.fst
      (by rw [List.enum_map_fst]; exact List.nodup_range _)) (by simp)]
  exact List.enum_map_snd l

/-! ## Lemmas about the close-date maximum (fetch.js 258-272) -/

theorem all_some_eq_map (l : List Dayjs) (h : ∀ d ∈ l, d ≠ none) :
    l = (l.filterMap id).map some := by
  induction l with
  | nil => rfl
  | cons o t ih =>
    cases o with
    | none => exact absurd rfl (h none (List.mem_cons_self _ _))
    | some x =>
      simp only [List.filterMap_cons, id, List.map_cons]
      exact congrArg _ (ih (fun d hd => h d (List.mem_cons_of_mem _ hd)))

theorem foldl_jsmax_map_some (vals : List Int) (a : Int) :
    List.foldl
      (fun (acc : Option Dayjs) (itm : Dayjs) =>
        match acc with
        | none => some itm
        | some b => if dayjsIsAfter b itm then some b else some itm)
      (some (some a)) (vals.map some)
      = some (some (List.foldl max a vals)) := by
  induction vals generalizing a with
  | nil => rfl
  | cons v vs ih =>
    simp only [List.map_cons, List.foldl_cons]
    have hstep :
        (if dayjsIsAfter (some a) (some v) then some (some a) else some (some v))
          = (some (some (max a v)) : Option Dayjs) := by
      by_cases hv : v < a
      · rw [if_pos (by simp [dayjsIsAfter, hv]), max_eq_left hv.le]
      · rw [if_neg (by simp [dayjsIsAfter, hv]), max_eq_right (le_of_not_lt hv)]
    rw [hstep, ih]

theorem foldl_max_le (vs : List Int) :
    ∀ v : Int, v ≤ List.foldl max v vs ∧ ∀ x ∈ vs, x ≤ List.foldl max v vs := by
  induction vs with
  | nil => intro v; exact ⟨le_refl v, by simp⟩
  | cons w ws ih =>
    intro v
    rcases ih (max v w) with ⟨h1, h2⟩
    refine ⟨le_trans (le_max_left v w) h1, ?_⟩
    intro x hx
    rcases List.mem_cons.mp hx with rfl | hx
    · exact le_trans (le_max_right v x) h1
    · exact h2 x hx

theorem foldl_max_mem (vs : List Int) :
    ∀ v : Int, List.foldl max v vs = v ∨ List.foldl max v vs ∈ vs := by
  induction vs with
  | nil => intro v; exact Or.inl rfl
  | cons w ws ih =>
    intro v
    rcases ih (max v w) with h | h
    · rcases max_choice v w with hm | hm
      · exact Or.inl (by rw [List.foldl_cons, h, hm])
      · exact Or.inr (by rw [List.foldl_cons, h, hm]; exact List.mem_cons_self _ _)
    · exact Or.inr (List.mem_cons_of_mem _ (by rw [List.foldl_cons]; exact h))

theorem guess1_eq_max (periods : List PeriodI)
    (h : ∀ d ∈ nonTMCCloses periods, d ≠ none) :
    generalAvailabilityGuess1 periods
      = match (nonTMCCloses periods).filterMap id with
        | [] => none
        | v :: vs => some (some (List.foldl max v vs)) := by
  unfold generalAvailabilityGuess1
  conv_lhs => rw [all_some_eq_map (nonTMCCloses periods) h]
  cases hv : (nonTMCCloses periods).filterMap id with
  | nil => rfl
  | cons v vs =>
    simp only [List.map_cons, List.foldl_cons]
    exact foldl_jsmax_map_some vs v

/-! ## Lemmas about JS object lookup -/

theorem jsGet_foldl_init (l : List (String × Overrides)) (k : String) :
    ∀ init : Option Overrides,
      List.foldl (fun acc p => if p.1 = k then some p.2 else acc) init l
        = match jsGet l k with
          | some v => some v
          | none => init := by
  induction l with
  | nil => intro init; rfl
  | cons p t ih =>
    intro init
    show List.foldl _ (if p.1 = k then some p.2 else init) t = _
    rw [ih]
    show _ = match List.foldl _ (if p.1 = k then some p.2 else none) t with
      | some v => some v
      | none => init
    rw [ih (if p.1 = k then some p.2 else none)]
    by_cases hp : p.1 = k
    · simp only [if_pos hp]
      cases jsGet t k <;> rfl
    · simp only [if_neg hp]
      cases jsGet t k <;> rfl

theorem jsGet_append (a b : List (String × Overrides)) (k : String) :
    jsGet (a ++ b) k
      = match jsGet b k with
        | some v => some v
        | none => jsGet a k := by
  show List.foldl _ none (a ++ b) = _
  rw [List.foldl_append]
  exact jsGet_foldl_init b k _

/-- The prior-run data is spread last into `manualData`, so its entry for a
TLD wins over any static-table entry. -/
theorem jsGet_manualData_of_prev (prevData : List (String × Overrides))
    (k : String) (ov : Overrides) (h : jsGet prevData k = some ov) :
    jsGet (manualData prevData) k = some ov := by
  unfold manualData
  rw [show
      (mapReduceToObj [ "com", "info", "net", "org", "mobi" ]
        { isBrand := none, hasRestrictions := none }
      ++ mapReduceToObj
        [ "aero", "asia", "cat", "coop", "edu", "gov", "int", "jobs", "mil",
          "museum", "post", "tel", "travel", "xxx" ]
        { isBrand := some false, hasRestrictions := some true }
      ++ mapReduceToObj [ "biz", "name", "pro" ]
        { isBrand := some false, hasRestrictions := some true }
      ++ [ ("arpa", { isBrand := some false, hasRestrictions := some true }) ]
      ++ prevData : List (String × Overrides))
      = (mapReduceToObj [ "com", "info", "net", "org", "mobi" ]
        { isBrand := none, hasRestrictions := none }
      ++ (mapReduceToObj
        [ "aero", "asia", "cat", "coop", "edu", "gov", "int", "jobs", "mil",
          "museum", "post", "tel", "travel", "xxx" ]
        { isBrand := some false, hasRestrictions := some true }
      ++ (mapReduceToObj [ "biz", "name", "pro" ]
        { isBrand := some false, hasRestrictions := some true }
      ++ ([ ("arpa", { isBrand := some false, hasRestrictions := some true }) ]
      ++ prevData)))) from by simp [List.append_assoc]]
  rw [jsGet_append, jsGet_append, jsGet_append, jsGet_append, h]

/-! ## Lemmas about the retry loop -/

theorem fetchRetryGo_zero (opts : RetryOpts) (outcomes : Nat → FetchOutcome) (a : Nat) :
    fetchRetryGo opts outcomes a 0 = (resolveOf (outcomes a), []) := by
  cases ho : outcomes a <;> simp [fetchRetryGo, ho, resolveOf]

theorem fetchRetryGo_succ_status_nr (opts : RetryOpts) (outcomes : Nat → FetchOutcome)
    (a f c : Nat) (ho : outcomes a = FetchOutcome.status c)
    (hc : opts.retryOn.contains c = false) :
    fetchRetryGo opts outcomes a (f + 1) = (Except.ok c, []) := by
  simp only [fetchRetryGo, ho]
  rw [if_neg (by rw [hc]; exact Bool.false_ne_true)]

theorem fetchRetryGo_succ_retry (opts : RetryOpts) (outcomes : Nat → FetchOutcome)
    (a f : Nat) (h : retryableIn opts (outcomes a) = true) :
    fetchRetryGo opts outcomes a (f + 1)
      = ((fetchRetryGo opts outcomes (a + 1) f).1,
         opts.retryDelay a :: (fetchRetryGo opts outcomes (a + 1) f).2) := by
  cases ho : outcomes a with
  | status c =>
    rw [ho, retryableIn] at h
    simp only [fetchRetryGo, ho]
    rw [if_pos h]
  | networkError => simp [fetchRetryGo, ho]

/-- The `fetch-retry` loop resolves with the first non-retryable outcome
(or the outcome at exhaustion), having slept the configured delay after
each earlier attempt. -/
theorem fetchRetryGo_spec (opts : RetryOpts) (outcomes : Nat → FetchOutcome) :
    ∀ (k a f : Nat), k ≤ f →
      (∀ i, i < k → retryableIn opts (outcomes (a + i)) = true) →
      (retryableIn opts (outcomes (a + k)) = false ∨ k = f) →
      fetchRetryGo opts outcomes a f
        = (resolveOf (outcomes (a + k)),
           (List.range k).map (fun i => opts.retryDelay (a + i))) := by
  intro k
  induction k with
  | zero =>
    intro a f _ _ hnr
    cases f with
    | zero => rw [fetchRetryGo_zero, Nat.add_zero]; rfl
    | succ m =>
      rcases hnr with hnr | hnr
      · rw [Nat.add_zero] at hnr
        cases ho : outcomes a with
        | status c =>
          rw [ho, retryableIn] at hnr
          rw [fetchRetryGo_succ_status_nr opts outcomes a m c ho hnr,
            Nat.add_zero, ho]
          rfl
        | networkError =>
          rw [ho, retryableIn] at hnr
          exact absurd hnr (by simp)
      · exact absurd hnr (by omega)
  | succ k ih =>
    intro a f hk hr hnr
    cases f with
    | zero => omega
    | succ m =>
      have hr0 : retryableIn opts (outcomes a) = true := by
        have h := hr 0 (by omega)
        rwa [Nat.add_zero] at h
      rw [fetchRetryGo_succ_retry opts outcomes a m hr0]
      have hrec := ih (a + 1) m (by omega)
        (fun i hi => by
          have h := hr (i + 1) (by omega)
          rwa [show a + (i + 1) = a + 1 + i by omega] at h)
        (by
          rcases hnr with hnr | hnr
          · exact Or.inl (by rwa [show a + 1 + k = a + (k + 1) by omega])
          · exact Or.inr (by omega))
      rw [hrec]
      have hranges :
          (List.range (k + 1)).map (fun i => opts.retryDelay (a + i))
            = opts.retryDelay a
              :: (List.range k).map (fun i => opts.retryDelay (a + 1 + i)) := by
        rw [List.range_succ_eq_map, List.map_cons, List.map_map]
        refine congrArg₂ _ (by rw [Nat.add_zero]) ?_
        refine List.map_congr_left ?_
        intro j _
        show opts.retryDelay (a + (j + 1)) = opts.retryDelay (a + 1 + j)
        rw [show a + (j + 1) = a + 1 + j by omega]
      rw [hranges, show a + 1 + k = a + (k + 1) by omega]

/-! ## Lemmas about failure-propagating maps -/

/-- If any element of the list makes the callback throw, the whole map
throws. -/
theorem exceptMapM_none_of_mem (f : α → Except ε β) (l : List α) (x : α)
    (hx : x ∈ l) (he : (f x).toOption = none) :
    (exceptMapM f l).toOption = none := by
  induction l with
  | nil => cases hx
  | cons a t ih =>
    rcases List.mem_cons.mp hx with rfl | hxt
    · cases hfa : f x with
      | error e => simp [exceptMapM, hfa, Except.toOption]
      | ok b => rw [hfa] at he; cases he
    · cases hfa : f a with
      | error e => simp [exceptMapM, hfa, Except.toOption]
      | ok b =>
        have h := ih hxt
        cases hrec : exceptMapM f t with
        | error e => simp [exceptMapM, hfa, hrec, Except.toOption]
        | ok bs => rw [hrec] at h; cases h

/-! ## Claim theorems -/

/-- C1: the Status-Period Extractor is claimed to abort on a duplicate TLD
label.  In fact its uniqueness assertion compares the freshly allocated row
objects by reference, so it can never fail: feeding the same "forum" row
twice yields a successful result whose output carries the label "forum"
twice. -/
theorem getTLDsWithStatusPeriods_duplicate_label_not_fatal :
    (getTLDsWithStatusPeriods (fun s => s) 0
        [ dupStatusRow, dupStatusRow ]).toOption.map
      (fun l => l.map (fun r => r.tld)) = some [ "forum", "forum" ] := by
  decide

/-- C4 (counterexample): a row whose sunrise open date is the non-date
string "garbage" is not rejected: the row parses successfully and the
invalid date appears in the output, formatted as "Invalid Date". -/
theorem parseStatusRow_bad_date_not_rejected :
    parseStatusRow (fun s => s) 0 badDateRow
      = Except.ok
          { tld := "law", spec13 := false,
            periods := [ { name := "Sunrise", openDate := some "Invalid Date" } ],
            isNotGenerallyAvailable := true } := rfl

/-- C4 (amended): period dates are parsed under the strict day-month-year
format, but a date string that fails the parse does not abort the unit
being parsed — `makePeriod` succeeds and stores the Invalid Date value in
the period. -/
theorem makePeriod_invalid_date_not_fatal (name openS closeS typeS : String)
    (h1 : name ≠ "") (h2 : openS ≠ "") (h3 : parseDMMMYYYY openS = none) :
    makePeriod name openS closeS typeS
      = Except.ok
          [ { name := name, openDate := some none,
              closeDate := if closeS ≠ "" then some (parseDMMMYYYY closeS) else none,
              type := if typeS ≠ "" then some typeS else none } ] := by
  simp [makePeriod, h1, h2, h3]

theorem makePeriod_invalid_date_not_fatal_witness :
    (("Sunrise" : String) ≠ "" ∧ ("garbage" : String) ≠ ""
      ∧ parseDMMMYYYY "garbage" = none)
    ∧ makePeriod "Sunrise" "garbage" "" ""
        = Except.ok [ { name := "Sunrise", openDate := some none } ] :=
  ⟨⟨by decide, by decide, by decide⟩,
    makePeriod_invalid_date_not_fatal "Sunrise" "garbage" "" ""
      (by decide) (by decide) (by decide)⟩

/-- C9 (counterexample): a four-cell IANA row is not rejected — the
destructuring ignores the extra cell and a record is emitted. -/
theorem getTLDInfoFromIANADB_four_cells_ok :
    getTLDInfoFromIANADB [ [ "x.", "generic", "S", "EXTRA" ] ]
      = Except.ok [ { tld := "x", type := "generic", sponsor := "S" } ] := rfl

/-- C9 (amended): a row with fewer than three cells is a fatal parse error
(the missing cell is `undefined` and trimming it throws), while a row with
three or more cells yields a record built from its first three cells. -/
theorem parseIanaRow_cell_count :
    (∀ (a b c : String) (rest : List String),
      parseIanaRow (a :: b :: c :: rest)
        = Except.ok { tld := ianaCleanTld a, type := jsTrim b, sponsor := jsTrim c })
    ∧ (∀ cells : List String, cells.length < 3 →
        ∀ pre post : List (List String),
          (getTLDInfoFromIANADB (pre ++ cells :: post)).toOption = none) := by
  constructor
  · intro a b c rest
    rfl
  · intro cells hlen pre post
    refine exceptMapM_none_of_mem parseIanaRow _ cells
      (List.mem_append_right pre (List.mem_cons_self _ _)) ?_
    rcases cells with _ | ⟨a, _ | ⟨b, _ | ⟨c, rest⟩⟩⟩
    · rfl
    · rfl
    · rfl
    · simp at hlen
      omega

theorem parseIanaRow_cell_count_witness :
    (([ "onlytwo", "cells" ] : List String).length < 3)
    ∧ (getTLDInfoFromIANADB [ [ "onlytwo", "cells" ] ]).toOption = none :=
  ⟨by decide, parseIanaRow_cell_count.2 [ "onlytwo", "cells" ] (by decide) [] []⟩

/-- C8 (counterexample): the fetch the pipeline actually uses
(`fetchRetry(nodeFetch)` with library defaults, fetch.js line 10) does not
retry an HTTP 500 response: the very first 500 resolves immediately with
no backoff sleeps, contrary to the claimed 500-511 retry policy for every
pipeline fetch. -/
theorem pipelineFetch_500_not_retried :
    fetchRetrySim pipelineFetchOpts (fun _ => FetchOutcome.status 500)
      = (Except.ok 500, []) := rfl

/-- C8 (amended): the configured wrapper exported by `utils.js` retries on
network failure and on statuses 500-511 with backoff `3 ^ attempt * 10000`
up to 4 retries, resolving the first non-retryable outcome or the outcome
at exhaustion; the pipeline module's own fetch instead uses the library
defaults — any status resolves immediately, and only network errors are
retried, 3 times at 1000 ms each, after which the error is rejected to the
caller. -/
theorem fetch_retry_policy (outcomes : Nat → FetchOutcome) :
    (∀ k, k ≤ 4 →
      (∀ i, i < k → retryableIn utilsFetchOpts (outcomes i) = true) →
      retryableIn utilsFetchOpts (outcomes k) = false →
      fetchRetrySim utilsFetchOpts outcomes
        = (resolveOf (outcomes k), (List.range k).map (fun i => 3 ^ i * 10000)))
    ∧ ((∀ i, i ≤ 4 → retryableIn utilsFetchOpts (outcomes i) = true) →
      fetchRetrySim utilsFetchOpts outcomes
        = (resolveOf (outcomes 4), (List.range 4).map (fun i => 3 ^ i * 10000)))
    ∧ (∀ c, outcomes 0 = FetchOutcome.status c →
      fetchRetrySim pipelineFetchOpts outcomes = (Except.ok c, []))
    ∧ ((∀ i, i ≤ 3 → outcomes i = FetchOutcome.networkError) →
      fetchRetrySim pipelineFetchOpts outcomes
        = (Except.error (), [ 1000, 1000, 1000 ])) := by
  refine ⟨?_, ?_, ?_, ?_⟩
  · intro k hk hr hnr
    have h := fetchRetryGo_spec utilsFetchOpts outcomes k 0 4 hk
      (fun i hi => by simpa using hr i hi) (Or.inl (by simpa using hnr))
    simpa [fetchRetrySim, utilsFetchOpts] using h
  · intro hall
    have h := fetchRetryGo_spec utilsFetchOpts outcomes 4 0 4 (le_refl 4)
      (fun i hi => by simpa using hall i (by omega)) (Or.inr rfl)
    simpa [fetchRetrySim, utilsFetchOpts] using h
  · intro c hc
    have h := fetchRetryGo_spec pipelineFetchOpts outcomes 0 0 3 (by omega)
      (fun i hi => absurd hi (by omega))
      (Or.inl (by simp [hc, retryableIn, pipelineFetchOpts, List.contains]))
    simpa [fetchRetrySim, pipelineFetchOpts, hc, resolveOf] using h
  · intro hall
    have h := fetchRetryGo_spec pipelineFetchOpts outcomes 3 0 3 (le_refl 3)
      (fun i hi => by rw [Nat.zero_add, hall i (by omega)]; rfl) (Or.inr rfl)
    have h3 := hall 3 (by omega)
    refine Eq.trans (show fetchRetrySim pipelineFetchOpts outcomes
        = fetchRetryGo pipelineFetchOpts outcomes 0 3 from rfl) ?_
    rw [h, show (0 + 3 : Nat) = 3 from rfl, h3]
    rfl

theorem fetch_retry_policy_witness :
    (∀ i, i ≤ 4 →
      retryableIn utilsFetchOpts ((fun _ => FetchOutcome.status 503) i) = true)
    ∧ fetchRetrySim utilsFetchOpts (fun _ => FetchOutcome.status 503)
        = (Except.ok 503, [ 10000, 30000, 90000, 270000 ]) := by
  refine ⟨fun i _ => rfl, ?_⟩
  have h := (fetch_retry_policy (fun _ => FetchOutcome.status 503)).2.1
    (fun i _ => rfl)
  exact h.trans rfl

/-- C2 (amended): for rows whose present non-"Trademark Claims" close
dates are all valid dates, the computed `isNotGenerallyAvailable` is
`true` exactly when either no such close date exists or the maximum one
is after the current time.  (Without that restriction the claim is false:
see the counterexample theorem — an unparseable close date survives the
truthiness filter as an Invalid Date and, since `isAfter` against an
Invalid Date is always false, replaces the `reduce` accumulator,
discarding every earlier close.) -/
theorem isNotGenerallyAvailable_max_close (periods : List PeriodI) (now : Int)
    (h : ∀ d ∈ nonTMCCloses periods, d ≠ none) :
    isNotGenerallyAvailableOf periods now = true ↔
      ((nonTMCCloses periods).filterMap id = [] ∨
        ∃ m ∈ (nonTMCCloses periods).filterMap id,
          (∀ x ∈ (nonTMCCloses periods).filterMap id, x ≤ m) ∧ now < m) := by
  unfold isNotGenerallyAvailableOf
  rw [guess1_eq_max periods h]
  cases hv : (nonTMCCloses periods).filterMap id with
  | nil => simp
  | cons v vs =>
    show dayjsIsAfter (some (List.foldl max v vs)) (some now) = true ↔
      (v :: vs = [] ∨
        ∃ m ∈ v :: vs, (∀ x ∈ v :: vs, x ≤ m) ∧ now < m)
    rw [show dayjsIsAfter (some (List.foldl max v vs)) (some now)
        = decide (now < List.foldl max v vs) from rfl, decide_eq_true_eq]
    constructor
    · intro hlt
      refine Or.inr ⟨List.foldl max v vs, ?_, ?_, hlt⟩
      · rcases foldl_max_mem vs v with hm | hm
        · rw [hm]; exact List.mem_cons_self _ _
        · exact List.mem_cons_of_mem _ hm
      · intro x hx
        rcases List.mem_cons.mp hx with rfl | hx
        · exact (foldl_max_le vs x).1
        · exact (foldl_max_le vs v).2 x hx
    · rintro (hnil | ⟨m, hm, _, hnow⟩)
      · cases hnil
      · have hmM : m ≤ List.foldl max v vs := by
          rcases List.mem_cons.mp hm with rfl | hm'
          · exact (foldl_max_le vs m).1
          · exact (foldl_max_le vs v).2 m hm'
        exact lt_of_lt_of_le hnow hmM

theorem isNotGenerallyAvailable_max_close_witness :
    (∀ d ∈ nonTMCCloses c2Periods, d ≠ none)
    ∧ (isNotGenerallyAvailableOf c2Periods 50 = true ↔
        ((nonTMCCloses c2Periods).filterMap id = [] ∨
          ∃ m ∈ (nonTMCCloses c2Periods).filterMap id,
            (∀ x ∈ (nonTMCCloses c2Periods).filterMap id, x ≤ m) ∧ 50 < m)) :=
  ⟨by decide, isNotGenerallyAvailable_max_close c2Periods 50 (by decide)⟩

/-- C6: provided punycode decoding never yields a string that itself
carries the `xn--` prefix, the Root Zone Extractor returns each label at
most once, exactly the labels of the pre-deduplication list, in the order
of their first occurrences; no output label carries the raw `xn--` prefix,
and every `xn--` owner name of the zone contributes its decoded form. -/
theorem getTLDsFromRootZone_unique_decoded (decode : String → String) (text : String)
    (hdec : ∀ t, charsLead xnLead (decode t).toList = false) :
    (getTLDsFromRootZone decode text).Nodup
    ∧ (∀ x, x ∈ getTLDsFromRootZone decode text ↔ x ∈ rootZonePre decode text)
    ∧ List.Pairwise
        (fun x y => List.indexOf x (rootZonePre decode text)
          < List.indexOf y (rootZonePre decode text))
        (getTLDsFromRootZone decode text)
    ∧ (∀ s ∈ getTLDsFromRootZone decode text, charsLead xnLead s.toList = false)
    ∧ (∀ cs ∈ rootZoneStripped text, charsLead xnLead cs = true →
        decode (String.mk (cs.drop 4)) ∈ getTLDsFromRootZone decode text) := by
  refine ⟨nodup_jsUnique _, fun x => mem_jsUnique, pairwise_indexOf_jsUnique _, ?_, ?_⟩
  · intro s hs
    have hpre : s ∈ rootZonePre decode text := mem_jsUnique.mp hs
    rcases List.mem_map.mp hpre with ⟨cs, _, heq⟩
    by_cases hl : charsLead xnLead cs
    · rw [if_pos hl] at heq
      rw [← heq]
      exact hdec _
    · rw [if_neg hl] at heq
      rw [← heq, toList_mk]
      exact Bool.eq_false_iff.mpr hl
  · intro cs hcs hl
    exact mem_jsUnique.mpr (List.mem_map.mpr ⟨cs, hcs, by rw [if_pos hl]⟩)

theorem getTLDsFromRootZone_unique_decoded_witness :
    (getTLDsFromRootZone (fun _ => "rf") rootZoneSample).Nodup
    ∧ (∀ x, x ∈ getTLDsFromRootZone (fun _ => "rf") rootZoneSample ↔
        x ∈ rootZonePre (fun _ => "rf") rootZoneSample)
    ∧ List.Pairwise
        (fun x y => List.indexOf x (rootZonePre (fun _ => "rf") rootZoneSample)
          < List.indexOf y (rootZonePre (fun _ => "rf") rootZoneSample))
        (getTLDsFromRootZone (fun _ => "rf") rootZoneSample)
    ∧ (∀ s ∈ getTLDsFromRootZone (fun _ => "rf") rootZoneSample,
        charsLead xnLead s.toList = false)
    ∧ (∀ cs ∈ rootZoneStripped rootZoneSample, charsLead xnLead cs = true →
        (fun _ : String => "rf") (String.mk (cs.drop 4))
          ∈ getTLDsFromRootZone (fun _ => "rf") rootZoneSample) :=
  getTLDsFromRootZone_unique_decoded (fun _ => "rf") rootZoneSample (fun _ => rfl)

/-- C7 (counterexample): a root-zone label with two matching IANA records
does not abort the merge — the first record's type is used silently. -/
theorem combineIana_duplicate_first_match :
    combineIana [ "com" ]
      [ { tld := "com", type := "generic", sponsor := "VeriSign" },
        { tld := "com", type := "country-code", sponsor := "other" } ]
      = Except.ok [ { tld := "com", type := "generic" } ] := rfl

/-- C7 (amended): the merge succeeds exactly when every root-zone label
has at least one matching IANA record — a label with no record is a fatal
error — and on success each label receives the type of its first matching
record; multiple matches are not detected. -/
theorem combineIana_missing_fatal (tlds : List String) (iana : List IanaRec) :
    ((combineIana tlds iana).toOption.isSome = true ↔
      ∀ s ∈ tlds, ∃ r ∈ iana, r.tld = s)
    ∧ (∀ res, combineIana tlds iana = Except.ok res →
        res = tlds.map (fun s =>
          { tld := s,
            type := ((iana.find? (fun r => r.tld == s)).map
              (fun r => r.type)).getD "" })) := by
  induction tlds with
  | nil =>
    constructor
    · simp [combineIana, Except.toOption]
    · intro res hres
      cases hres
      rfl
  | cons s rest ih =>
    cases hf : iana.find? (fun r => r.tld == s) with
    | none =>
      constructor
      · simp only [combineIana, hf]
        constructor
        · intro hcontra
          simp [Except.toOption] at hcontra
        · intro hall
          exfalso
          rcases hall s (List.mem_cons_self _ _) with ⟨r, hr, hrt⟩
          rw [List.find?_eq_none] at hf
          exact hf r hr (by simp [hrt])
      · intro res hres
        simp only [combineIana, hf] at hres
        cases hres
    | some r =>
      have hr_mem := List.mem_of_find?_eq_some hf
      have hr_eq : r.tld = s := by
        have h := List.find?_some hf
        simpa using h
      cases hrec : combineIana rest iana with
      | error e =>
        constructor
        · simp only [combineIana, hf, hrec]
          constructor
          · intro hcontra
            simp [Except.toOption] at hcontra
          · intro hall
            exfalso
            have h1 := ih.1.mpr (fun s' hs' => hall s' (List.mem_cons_of_mem _ hs'))
            rw [hrec] at h1
            simp [Except.toOption] at h1
        · intro res hres
          simp only [combineIana, hf, hrec] at hres
          cases hres
      | ok l =>
        constructor
        · simp only [combineIana, hf, hrec]
          constructor
          · intro _
            intro s' hs'
            rcases List.mem_cons.mp hs' with rfl | hs'
            · exact ⟨r, hr_mem, hr_eq⟩
            · exact ih.1.mp (by rw [hrec]; rfl) s' hs'
          · intro _
            simp [Except.toOption]
        · intro res hres
          simp only [combineIana, hf, hrec] at hres
          injection hres with hres
          rw [← hres, List.map_cons, hf]
          exact congrArg _ (ih.2 l hrec)

theorem combineIana_missing_fatal_witness :
    (∀ s ∈ ([ "com" ] : List String),
      ∃ r ∈ [ ({ tld := "com", type := "generic", sponsor := "x" } : IanaRec) ],
        r.tld = s)
    ∧ (combineIana [ "com" ]
        [ { tld := "com", type := "generic", sponsor := "x" } ]).toOption.isSome
      = true :=
  ⟨by decide,
    (combineIana_missing_fatal [ "com" ]
      [ { tld := "com", type := "generic", sponsor := "x" } ]).1.mpr (by decide)⟩

/-- C3: a prior-run entry for a TLD makes the Aggregator adopt its
`isBrand`/`hasRestrictions` verbatim without invoking the Registry
Agreement Extractor (carry-forward wins over the static table, whose entry
it overwrites in `manualData`); any `manualData` hit suppresses the
extractor; and a generic-type TLD with no entry is completed from the
extractor with `isBrand = hasSpec13 || hasSpec9Exemption` and
`hasRestrictions = hasSpec12`. -/
theorem brand_resolution_precedence (prevData : List (String × Overrides))
    (agree : String → AgreementInfo) (toASCII : String → String) (t : MergedRec) :
    (∀ ov, jsGet prevData t.tld = some ov →
      registryAgreementStep (manualData prevData) agree toASCII t
        = ({ t with
             isBrand := ov.isBrand,
             hasRestrictions := ov.hasRestrictions }, false))
    ∧ (∀ ov, jsGet (manualData prevData) t.tld = some ov →
      (registryAgreementStep (manualData prevData) agree toASCII t).2 = false)
    ∧ (jsGet (manualData prevData) t.tld = none → t.type = "generic" →
      registryAgreementStep (manualData prevData) agree toASCII t
        = ({ t with
             isBrand := some ((agree (toASCII t.tld)).hasSpec13
               || (agree (toASCII t.tld)).hasSpec9Exemption),
             hasRestrictions := some (agree (toASCII t.tld)).hasSpec12 }, true)) := by
  refine ⟨?_, ?_, ?_⟩
  · intro ov hov
    have h := jsGet_manualData_of_prev prevData t.tld ov hov
    unfold registryAgreementStep
    rw [h]
  · intro ov hov
    unfold registryAgreementStep
    rw [hov]
  · intro hnone htype
    unfold registryAgreementStep
    rw [hnone, if_pos htype]

theorem brand_resolution_precedence_witness :
    (registryAgreementStep (manualData prevDataMobi) agreeFix (fun s => s)
        { tld := "mobi", type := "generic" }
      = ({ tld := "mobi",
           type := "generic",
           isBrand := some true,
           hasRestrictions := some false }, false))
    ∧ (registryAgreementStep (manualData prevDataMobi) agreeFix (fun s => s)
        { tld := "zzz", type := "generic" }
      = ({ tld := "zzz",
           type := "generic",
           isBrand := some true,
           hasRestrictions := some true }, true)) :=
  ⟨(brand_resolution_precedence prevDataMobi agreeFix (fun s => s)
      { tld := "mobi", type := "generic" }).1
      { isBrand := some true, hasRestrictions := some false } (by decide),
    (brand_resolution_precedence prevDataMobi agreeFix (fun s => s)
      { tld := "zzz", type := "generic" }).2.2 (by decide) rfl⟩

/-- C10: a prior-run entry whose `isBrand` and `hasRestrictions` are both
absent (what re-keying a prior record lacking those fields produces) still
suppresses the registry-agreement scrape — the entry object is truthy —
and the final record ends up with neither value. -/
theorem readPrevious_absent_fields_carried (inp : List PrevRec)
    (agree : String → AgreementInfo) (toASCII : String → String) (t : MergedRec)
    (h : jsGet (readPrevious inp) t.tld
        = some { isBrand := none, hasRestrictions := none }) :
    registryAgreementStep (manualData (readPrevious inp)) agree toASCII t
      = ({ t with isBrand := none, hasRestrictions := none }, false) := by
  have h2 := jsGet_manualData_of_prev (readPrevious inp) t.tld _ h
  unfold registryAgreementStep
  rw [h2]

theorem readPrevious_absent_fields_carried_witness :
    jsGet (readPrevious
        [ { tld := "zzz", isBrand := none, hasRestrictions := none } ]) "zzz"
      = some { isBrand := none, hasRestrictions := none }
    ∧ registryAgreementStep
        (manualData (readPrevious
          [ { tld := "zzz", isBrand := none, hasRestrictions := none } ]))
        agreeFix (fun s => s) { tld := "zzz", type := "generic" }
      = ({ tld := "zzz",
           type := "generic",
           isBrand := none,
           hasRestrictions := none }, false) :=
  ⟨by decide,
    readPrevious_absent_fields_carried
      [ { tld := "zzz", isBrand := none, hasRestrictions := none } ]
      agreeFix (fun s => s) { tld := "zzz", type := "generic" } (by decide)⟩

/-- C5: once the landing page carries the agreement-HTML anchor, the
extractor returns exactly the three markers — `hasSpec13` is the presence
of the Specification 13 element, `hasSpec9Exemption` the presence of a
Specification 9 element whose text does not match "withdrawal"
case-insensitively, and `hasSpec12` whether the linked agreement text
contains the literal "SPECIFICATION 12"; on a fixture with all three
markers it returns all three flags true. -/
theorem gTLDInfoFromRegistryAgreement_markers :
    (∀ (page : LandingPage) (site : String → String) (href : String),
      page.agmtHtmlHref = some href →
      gTLDInfoFromRegistryAgreement page site
        = Except.ok
            { hasSpec13 := page.spec13,
              hasSpec12 := charsContains (String.toList "SPECIFICATION 12")
                (site href).toList,
              hasSpec9Exemption :=
                match page.spec9Text with
                | none => false
                | some txt =>
                  !charsContainsCI (String.toList "withdrawal") txt.toList })
    ∧ gTLDInfoFromRegistryAgreement landingAllMarkers agreementAllMarkers
        = Except.ok
            { hasSpec13 := true, hasSpec12 := true,
              hasSpec9Exemption := true } := by
  constructor
  · intro page site href h
    unfold gTLDInfoFromRegistryAgreement
    rw [h]
  · rfl

theorem gTLDInfoFromRegistryAgreement_markers_witness :
    landingAllMarkers.agmtHtmlHref
      = some "/en/about/agreements/registries/dummytld1"
    ∧ gTLDInfoFromRegistryAgreement landingAllMarkers agreementAllMarkers
      = Except.ok
          { hasSpec13 := true, hasSpec12 := true,
            hasSpec9Exemption := true } :=
  ⟨rfl,
    gTLDInfoFromRegistryAgreement_markers.1 landingAllMarkers
      agreementAllMarkers "/en/about/agreements/registries/dummytld1" rfl⟩

/-- C2 (counterexample): on a reachable row whose maximum valid
non-"Trademark Claims" close date (1 Jan 2099) is in the future at
evaluation time 0, the code nevertheless computes
`isNotGenerallyAvailable = false`, because the row's other unparseable
close date ("garbage") is kept as an Invalid Date and poisons the
`reduce`.  The claim demands `true` here. -/
theorem isNotGenerallyAvailable_invalid_close_poisons :
    parseDMMMYYYY "garbage" = none
    ∧ (parseStatusRow (fun s => s) 0 poisonRow).toOption.map
        (fun r => r.periods) = some (poisonPeriods.map toOutPeriod)
    ∧ some (encodeYMD 2099 1 1) ∈ nonTMCCloses poisonPeriods
    ∧ (∀ x ∈ (nonTMCCloses poisonPeriods).filterMap id, x ≤ encodeYMD 2099 1 1)
    ∧ (0 : Int) < encodeYMD 2099 1 1
    ∧ isNotGenerallyAvailableOf poisonPeriods 0 = false
    ∧ (parseStatusRow (fun s => s) 0 poisonRow).toOption.map
        (fun r => r.isNotGenerallyAvailable) = some false := by
  decide
